import Mathlib

/-!
Verification of the preference-collection application's core logic:
question catalog loading, the per-identity response ledger (upsert),
export services, statistics, and the account store.  File storage is
modelled by explicit state passing: the catalog CSV file is an
`Option (List CsvRow)` (`none` = absent file, rows are the data rows
seen by the dict-based CSV reader), per-identity ledgers are lists of
answer records, and the account table is an association list.
-/

/-- A question of the catalog: source sentence plus the two candidate
rephrasings, as built by `load_questions`. -/
structure Question where
  sentence : String
  option1 : String
  option2 : String
deriving DecidableEq

/-- One data row of the catalog CSV as seen by the dict reader: each of
the three expected columns may be missing (a missing column makes the
keyed access fail, as a `KeyError` does). -/
structure CsvRow where
  text : Option String
  multi : Option String
  translated : Option String
deriving DecidableEq

/-- The three built-in sample questions seeded when the catalog source
is absent or empty. -/
def sample_questions : List Question :=
  [⟨"The movie was really enjoyable and entertaining.",
    "I found the film to be quite delightful.",
    "The cinematic experience gave me great pleasure."⟩,
   ⟨"The company announced record profits this quarter.",
    "The firm reported unprecedented earnings for this period.",
    "The business revealed they had their most successful quarter yet."⟩,
   ⟨"The researchers discovered a new species of frog.",
    "Scientists identified a previously unknown amphibian of the frog family.",
    "The research team found a type of frog that was not known before."⟩]

/-- How the seeding code writes one question back to the CSV: column
`text` holds option 1, `multi` holds option 2, `translated` holds the
sentence. -/
def question_to_row (q : Question) : CsvRow :=
  ⟨some q.option1, some q.option2, some q.sentence⟩

/-- The CSV rows written by the self-seeding path. -/
def sample_csv : List CsvRow :=
  sample_questions.map question_to_row

/-- Reading one CSV row into a question, accessing the columns in the
order the code does (`translated`, `text`, `multi`); a missing column
is a `KeyError`, which the loader does not catch. -/
def parse_row (row : CsvRow) : Except String Question :=
  match row.translated with
  | none => .error "KeyError: translated"
  | some sentence =>
    match row.text with
    | none => .error "KeyError: text"
    | some o1 =>
      match row.multi with
      | none => .error "KeyError: multi"
      | some o2 => .ok ⟨sentence, o1, o2⟩

/-- Reading all CSV rows in order; the first bad row aborts the read. -/
def parse_rows : List CsvRow → Except String (List Question)
  | [] => .ok []
  | row :: rest =>
    match parse_row row with
    | .error e => .error e
    | .ok q =>
      match parse_rows rest with
      | .error e => .error e
      | .ok qs => .ok (q :: qs)

/-- The catalog loader `load_questions`: an absent file, or a file that
parses to zero questions, falls back to the built-in samples and writes
them back (the returned second component is the resulting file state);
a row with a missing expected column propagates the read error. -/
def load_questions (qfile : Option (List CsvRow)) :
    Except String (List Question × Option (List CsvRow)) :=
  match qfile with
  | none => .ok (sample_questions, some sample_csv)
  | some rows =>
    match parse_rows rows with
    | .error e => .error e
    | .ok questions =>
      if questions.isEmpty then .ok (sample_questions, some sample_csv)
      else .ok (questions, some rows)

/-- C3 counterexample: a present but malformed source (a row without the
`translated` column) makes `load_questions` raise a `KeyError` instead
of falling back to the samples, so the loader does not handle every
non-nominal source state gracefully. -/
theorem load_questions_raises_on_malformed :
    load_questions (some [⟨some "a", some "b", none⟩]) =
      .error "KeyError: translated" := rfl

/-- C3 (amended): for an absent source and for a zero-row source the
loader returns the 3 built-in sample questions and seeds the source, and
a subsequent load from the seeded source succeeds without the fallback
(returning the same questions and leaving the file unchanged). -/
theorem load_questions_graceful_on_absent_or_empty :
    load_questions none = .ok (sample_questions, some sample_csv) ∧
    load_questions (some []) = .ok (sample_questions, some sample_csv) ∧
    load_questions (some sample_csv) = .ok (sample_questions, some sample_csv) ∧
    sample_questions.length = 3 :=
  ⟨rfl, rfl, rfl, rfl⟩

/-- C8: loading from an absent source yields exactly the 3 built-in
sample questions and writes them back through the column renaming
(text, multi, translated) = (option1, option2, sentence); that renaming
round-trips every question, so a second load from the seeded source
returns the same 3 questions in the same order. -/
theorem load_questions_seed_roundtrip :
    sample_questions.length = 3 ∧
    load_questions none = .ok (sample_questions, some sample_csv) ∧
    (∀ q : Question, parse_row (question_to_row q) = .ok q) ∧
    load_questions (some sample_csv) = .ok (sample_questions, some sample_csv) :=
  ⟨rfl, rfl, fun _ => rfl, rfl⟩

/-- An answer record as constructed on submission and persisted in a
per-identity ledger file. -/
structure AnswerRecord where
  question_id : Nat
  user : String
  sentence : String
  selected_option : Nat
  selected_text : String
  confidence : Nat
  timestamp : String
deriving DecidableEq

/-- The scan at the start of `save_response`: index of the first ledger
record carrying the given question ordinal, if any. -/
def findExisting (qid : Nat) : List AnswerRecord → Option Nat
  | [] => none
  | r :: rs =>
    if r.question_id = qid then some 0
    else (findExisting qid rs).map (· + 1)

/-- Stable insertion of a record into a ledger sorted by question
ordinal: the record goes in front of the first record whose ordinal is
at least as large. -/
def insert_by_qid (a : AnswerRecord) : List AnswerRecord → List AnswerRecord
  | [] => [a]
  | r :: rs =>
    if a.question_id ≤ r.question_id then a :: r :: rs
    else r :: insert_by_qid a rs

/-- Stable sort of a ledger by question ordinal ascending; extensionally
this is the stable key sort the code applies after appending. -/
def sort_by_qid : List AnswerRecord → List AnswerRecord
  | [] => []
  | r :: rs => insert_by_qid r (sort_by_qid rs)

/-- The upsert `save_response` on the loaded ledger: if some record
already carries the submitted ordinal, replace it in place; otherwise
append the new record and re-sort by ordinal. The result is written
back and returned. -/
def save_response (responses : List AnswerRecord) (response : AnswerRecord) :
    List AnswerRecord :=
  match findExisting response.question_id responses with
  | some existing_index => responses.set existing_index response
  | none => sort_by_qid (responses ++ [response])

/-- The ledger invariant: the sequence of question ordinals is sorted
ascending and contains no duplicate. -/
def ledgerInvariant (l : List AnswerRecord) : Prop :=
  (l.map AnswerRecord.question_id).Pairwise (· ≤ ·) ∧
  (l.map AnswerRecord.question_id).Nodup

theorem findExisting_eq_none {qid : Nat} {l : List AnswerRecord} :
    findExisting qid l = none ↔ ∀ r ∈ l, r.question_id ≠ qid := by
  induction l with
  | nil => simp [findExisting]
  | cons r rs ih =>
    by_cases h : r.question_id = qid
    · simp [findExisting, h]
    · simp [findExisting, h, ih]

theorem findExisting_some_exists {qid : Nat} {l : List AnswerRecord}
    (h : ∃ r ∈ l, r.question_id = qid) : ∃ i, findExisting qid l = some i := by
  cases hfe : findExisting qid l with
  | some i => exact ⟨i, rfl⟩
  | none =>
    obtain ⟨r, hr, hq⟩ := h
    exact absurd hq (findExisting_eq_none.mp hfe r hr)

theorem set_found_basic {qid : Nat} {l : List AnswerRecord} {i : Nat}
    (a : AnswerRecord) (hq : a.question_id = qid)
    (h : findExisting qid l = some i) :
    (l.set i a).length = l.length ∧
    (l.set i a).get? i = some a ∧
    (∀ j, j ≠ i → (l.set i a).get? j = l.get? j) ∧
    (l.set i a).map AnswerRecord.question_id = l.map AnswerRecord.question_id ∧
    (∀ x : AnswerRecord, x.question_id ≠ qid → (l.set i a).count x = l.count x) := by
  induction l generalizing i with
  | nil => simp [findExisting] at h
  | cons r rs ih =>
    by_cases hr : r.question_id = qid
    · simp only [findExisting, if_pos hr] at h
      cases h
      refine ⟨by simp, by simp, ?_, ?_, ?_⟩
      · intro j hj
        cases j with
        | zero => exact absurd rfl hj
        | succ j => simp
      · simp [hq, hr]
      · intro x hx
        have hxa : x ≠ a := fun he => hx (he ▸ hq)
        have hxr : x ≠ r := fun he => hx (he ▸ hr)
        simp [List.count_cons, hxa, hxr]
    · simp only [findExisting, if_neg hr, Option.map_eq_some'] at h
      obtain ⟨i', hi', rfl⟩ := h
      obtain ⟨h1, h2, h3, h4, h5⟩ := ih hi'
      refine ⟨by simp [h1], by simpa using h2, ?_, ?_, ?_⟩
      · intro j hj
        cases j with
        | zero => simp
        | succ j =>
          have : j ≠ i' := fun he => hj (by simp [he])
          simpa using h3 j this
      · simpa using h4
      · intro x hx
        simp [List.count_cons, h5 x hx]

theorem set_found_unique {qid : Nat} {l : List AnswerRecord} {i : Nat}
    (a : AnswerRecord)
    (hnd : (l.map AnswerRecord.question_id).Nodup)
    (h : findExisting qid l = some i) :
    ∀ r ∈ l.set i a, r.question_id = qid → r = a := by
  induction l generalizing i with
  | nil => simp [findExisting] at h
  | cons r rs ih =>
    simp only [List.map_cons, List.nodup_cons] at hnd
    by_cases hr : r.question_id = qid
    · simp only [findExisting, if_pos hr] at h
      cases h
      intro x hx hxq
      rcases List.mem_cons.mp hx with hxa | hxs
      · exact hxa
      · have hmem : r.question_id ∈ rs.map AnswerRecord.question_id := by
          rw [hr, ← hxq]
          exact List.mem_map_of_mem AnswerRecord.question_id hxs
        exact absurd hmem hnd.1
    · simp only [findExisting, if_neg hr, Option.map_eq_some'] at h
      obtain ⟨i', hi', rfl⟩ := h
      intro x hx hxq
      rcases List.mem_cons.mp (by simpa using hx) with hxr | hxs
      · exact absurd (hxr ▸ hxq) hr
      · exact ih hnd.2 hi' x hxs hxq

theorem perm_insert_by_qid (a : AnswerRecord) (l : List AnswerRecord) :
    List.Perm (insert_by_qid a l) (a :: l) := by
  induction l with
  | nil => exact List.Perm.refl _
  | cons r rs ih =>
    by_cases h : a.question_id ≤ r.question_id
    · simp [insert_by_qid, h]
    · simp only [insert_by_qid, if_neg h]
      exact (ih.cons r).trans (List.Perm.swap a r rs)

theorem perm_sort_by_qid (l : List AnswerRecord) :
    List.Perm (sort_by_qid l) l := by
  induction l with
  | nil => exact List.Perm.refl _
  | cons r rs ih =>
    exact (perm_insert_by_qid r (sort_by_qid rs)).trans (ih.cons r)

theorem mem_insert_by_qid {x a : AnswerRecord} {l : List AnswerRecord} :
    x ∈ insert_by_qid a l ↔ x = a ∨ x ∈ l := by
  rw [(perm_insert_by_qid a l).mem_iff]
  simp

theorem pairwise_insert_by_qid (a : AnswerRecord) {l : List AnswerRecord}
    (h : l.Pairwise (fun x y => x.question_id ≤ y.question_id)) :
    (insert_by_qid a l).Pairwise (fun x y => x.question_id ≤ y.question_id) := by
  induction l with
  | nil => simp [insert_by_qid]
  | cons r rs ih =>
    rw [List.pairwise_cons] at h
    by_cases hle : a.question_id ≤ r.question_id
    · simp only [insert_by_qid, if_pos hle]
      rw [List.pairwise_cons]
      refine ⟨?_, List.pairwise_cons.mpr h⟩
      intro x hx
      rcases List.mem_cons.mp hx with hxr | hxs
      · exact hxr ▸ hle
      · exact Nat.le_trans hle (h.1 x hxs)
    · simp only [insert_by_qid, if_neg hle]
      rw [List.pairwise_cons]
      refine ⟨?_, ih h.2⟩
      intro x hx
      rcases mem_insert_by_qid.mp hx with hxa | hxs
      · exact hxa ▸ Nat.le_of_not_le hle
      · exact h.1 x hxs

theorem pairwise_sort_by_qid (l : List AnswerRecord) :
    (sort_by_qid l).Pairwise (fun x y => x.question_id ≤ y.question_id) := by
  induction l with
  | nil => simp [sort_by_qid]
  | cons r rs ih => exact pairwise_insert_by_qid r ih

/-- C1: upserting a record whose question ordinal already occurs in a
ledger satisfying the invariant replaces the existing record in place:
the resulting ledger has the same length, contains the newly submitted
record, and the record stored under that ordinal is exactly the new
record. -/
theorem save_response_replaces (responses : List AnswerRecord)
    (response : AnswerRecord) (hinv : ledgerInvariant responses)
    (hmem : ∃ r ∈ responses, r.question_id = response.question_id) :
    (save_response responses response).length = responses.length ∧
    response ∈ save_response responses response ∧
    ∀ r ∈ save_response responses response,
      r.question_id = response.question_id → r = response := by
  obtain ⟨i, hfe⟩ := findExisting_some_exists hmem
  obtain ⟨h1, h2, _, _, _⟩ := set_found_basic response rfl hfe
  have huniq := set_found_unique response hinv.2 hfe
  simp only [save_response, hfe]
  exact ⟨h1, List.get?_mem h2, huniq⟩

/-- C2: the upsert preserves the ledger invariant: starting from a
ledger with exactly one record per ordinal sorted ascending, the
resulting ledger again has exactly one record per ordinal and is sorted
ascending by ordinal, whatever ordinal is submitted. -/
theorem save_response_invariant (responses : List AnswerRecord)
    (response : AnswerRecord) (hinv : ledgerInvariant responses) :
    ledgerInvariant (save_response responses response) := by
  cases hfe : findExisting response.question_id responses with
  | some i =>
    obtain ⟨_, _, _, h4, _⟩ := set_found_basic response rfl hfe
    simp only [save_response, hfe, ledgerInvariant, h4]
    exact hinv
  | none =>
    simp only [save_response, hfe, ledgerInvariant]
    constructor
    · exact List.pairwise_map.mpr (pairwise_sort_by_qid (responses ++ [response]))
    · have hperm : List.Perm
          ((sort_by_qid (responses ++ [response])).map AnswerRecord.question_id)
          ((responses ++ [response]).map AnswerRecord.question_id) :=
        (perm_sort_by_qid (responses ++ [response])).map _
      rw [hperm.nodup_iff]
      have hnotin : response.question_id ∉ responses.map AnswerRecord.question_id := by
        intro hmem
        obtain ⟨r, hr, hq⟩ := List.mem_map.mp hmem
        exact findExisting_eq_none.mp hfe r hr hq
      simp [List.nodup_append, hinv.2, hnotin]

/-- C9: the upsert touches only the submitted ordinal: records with any
other question ordinal occur in the result exactly as often as before
(content unchanged), and on the replace path every position other than
the replaced one holds exactly the record it held before. -/
theorem save_response_frame (responses : List AnswerRecord)
    (response : AnswerRecord) :
    (∀ x : AnswerRecord, x.question_id ≠ response.question_id →
      (save_response responses response).count x = responses.count x) ∧
    (∀ i, findExisting response.question_id responses = some i →
      ∀ j, j ≠ i → (save_response responses response).get? j = responses.get? j) := by
  constructor
  · intro x hx
    cases hfe : findExisting response.question_id responses with
    | some i =>
      obtain ⟨_, _, _, _, h5⟩ := set_found_basic response rfl hfe
      simp only [save_response, hfe]
      exact h5 x hx
    | none =>
      simp only [save_response, hfe]
      have hxr : x ≠ response := fun he => hx (he ▸ rfl)
      rw [(perm_sort_by_qid (responses ++ [response])).count_eq]
      simp [List.count_append, List.count_cons, hxr]
  · intro i hfe j hj
    obtain ⟨_, _, h3, _, _⟩ := set_found_basic response rfl hfe
    simp only [save_response, hfe]
    exact h3 j hj

/-- One entry of the account table: the stored password hash and the
creation timestamp. -/
structure Account where
  password : String
  created_at : String
deriving DecidableEq

/-- Registration: reject when the identity is already present in the
account table; otherwise store the hash of the password together with
the current timestamp (passed in as `now`).  The hash function itself
is an external primitive and is passed as a parameter. -/
def register_user (hash : String → String) (users : List (String × Account))
    (username password now : String) :
    (Bool × String) × List (String × Account) :=
  if (users.lookup username).isSome then
    ((false, "Username already exists"), users)
  else
    ((true, "Registration successful"), users ++ [(username, ⟨hash password, now⟩)])

/-- Deletion: remove the identity's ledger file when it exists, then
remove the identity's entry from the account table when present; the
operation reports success either way. -/
def delete_user (users : List (String × Account))
    (files : String → Option (List AnswerRecord)) (username : String) :
    (Bool × String) × List (String × Account) × (String → Option (List AnswerRecord)) :=
  let files2 := if (files username).isSome then
      (fun u => if u = username then none else files u) else files
  let users2 := if (users.lookup username).isSome then
      users.filter (fun kv => kv.1 != username) else users
  ((true, "User \x27" ++ username ++ "\x27 deleted successfully"), users2, files2)

theorem lookup_append_single_self {users : List (String × Account)}
    {username : String} (a : Account) (h : users.lookup username = none) :
    (users ++ [(username, a)]).lookup username = some a := by
  induction users with
  | nil => simp [List.lookup]
  | cons kv rest ih =>
    by_cases hk : username == kv.1
    · simp [List.lookup, hk] at h
    · simp only [List.lookup, hk] at h
      simpa [List.lookup, hk] using ih h

/-- C7: registering a fresh identity succeeds and stores the password
hash together with the creation timestamp; a second registration of the
same identity returns the already-exists failure, leaves the whole
account table unchanged, and in particular keeps the first
registration's hash and timestamp. -/
theorem register_user_twice (hash : String → String)
    (users : List (String × Account)) (username p1 t1 p2 t2 : String)
    (h : users.lookup username = none) :
    (register_user hash users username p1 t1).1 = (true, "Registration successful") ∧
    (register_user hash users username p1 t1).2.lookup username = some ⟨hash p1, t1⟩ ∧
    (register_user hash (register_user hash users username p1 t1).2 username p2 t2).1
      = (false, "Username already exists") ∧
    (register_user hash (register_user hash users username p1 t1).2 username p2 t2).2
      = (register_user hash users username p1 t1).2 ∧
    (register_user hash (register_user hash users username p1 t1).2 username p2 t2).2.lookup
      username = some ⟨hash p1, t1⟩ := by
  have hnot : (users.lookup username).isSome = false := by
    rw [h]
    rfl
  have hl := lookup_append_single_self (⟨hash p1, t1⟩ : Account) h
  simp [register_user, hnot, hl]

/-- C10: deleting an identity that has no account entry and no ledger
file still reports success, and both the account table and the ledger
files are left unchanged. -/
theorem delete_user_nonexistent (users : List (String × Account))
    (files : String → Option (List AnswerRecord)) (username : String)
    (hu : users.lookup username = none) (hf : files username = none) :
    (delete_user users files username).1.1 = true ∧
    (delete_user users files username).2.1 = users ∧
    ∀ u, (delete_user users files username).2.2 u = files u := by
  have hu2 : (users.lookup username).isSome = false := by
    rw [hu]
    rfl
  have hf2 : (files username).isSome = false := by
    rw [hf]
    rfl
  simp [delete_user, hu2, hf2]

/-- One denormalized row of an export file: the answer record joined
with its catalog question. -/
structure ExportRow where
  question_id : Nat
  user : String
  sentence : String
  option1 : String
  option2 : String
  selected_option : Nat
  selected_text : String
  confidence : Nat
  timestamp : String
deriving DecidableEq

/-- The join of one answer record against the catalog: looking up
`questions[record.question_id]` fails (an index error) when the ordinal
is out of range, otherwise it builds the denormalized row. -/
def make_row (username : String) (questions : List Question)
    (response : AnswerRecord) : Option ExportRow :=
  (questions[response.question_id]?).map (fun question =>
    ⟨response.question_id, username, question.sentence, question.option1,
     question.option2, response.selected_option, response.selected_text,
     response.confidence, response.timestamp⟩)

/-- The per-identity export `export_results`: one joined row per
record, in ledger order; the first record whose ordinal is out of
range for the catalog raises an index error, which the surrounding
handler converts to a failure result (`none`). -/
def export_results (username : String) (questions : List Question) :
    List AnswerRecord → Option (List ExportRow)
  | [] => some []
  | response :: rest =>
    match make_row username questions response with
    | none => none
    | some row =>
      (export_results username questions rest).map (fun rows => row :: rows)

/-- C4: exporting one identity fails (signalling the data-integrity
error) exactly when some ledger record's ordinal is out of range for
the catalog; when every ordinal is in range it succeeds with one joined
row per record. -/
theorem export_results_integrity (username : String)
    (questions : List Question) (responses : List AnswerRecord) :
    ((∃ r ∈ responses, questions.length ≤ r.question_id) →
      export_results username questions responses = none) ∧
    ((∀ r ∈ responses, r.question_id < questions.length) →
      ∃ rows, export_results username questions responses = some rows ∧
        rows.length = responses.length) := by
  induction responses with
  | nil =>
    constructor
    · rintro ⟨r, hr, _⟩
      simp at hr
    · intro _
      exact ⟨[], rfl, rfl⟩
  | cons r rs ih =>
    constructor
    · rintro ⟨x, hx, hxl⟩
      rcases List.mem_cons.mp hx with rfl | hxs
      · have hnone : questions[x.question_id]? = none :=
          List.getElem?_eq_none hxl
        simp [export_results, make_row, hnone]
      · cases hmr : make_row username questions r with
        | none => simp [export_results, hmr]
        | some row => simp [export_results, hmr, ih.1 ⟨x, hxs, hxl⟩]
    · intro hall
      have hr : r.question_id < questions.length := hall r (List.mem_cons_self r rs)
      have hq : questions[r.question_id]? = some (questions[r.question_id]) :=
        List.getElem?_eq_getElem hr
      obtain ⟨rows, hrows, hlen⟩ :=
        ih.2 (fun x hx => hall x (List.mem_cons_of_mem r hx))
      refine ⟨⟨r.question_id, username, (questions[r.question_id]).sentence,
        (questions[r.question_id]).option1, (questions[r.question_id]).option2,
        r.selected_option, r.selected_text, r.confidence, r.timestamp⟩ :: rows,
        ?_, by simp [hlen]⟩
      simp [export_results, make_row, hq, hrows]

/-- The aggregate export file: either the collected joined rows or the
single placeholder row written when there is no data at all. -/
inductive ExportFile where
  | rows : List ExportRow → ExportFile
  | placeholder : ExportFile
deriving DecidableEq

/-- The rows the aggregate export collects for one identity: nothing
when the identity's ledger fails to load, otherwise the joined rows of
the records whose ordinal is in range for the catalog (out-of-range
records are skipped by the explicit bound check). -/
def user_rows (questions : List Question) (username : String)
    (loads : String → Except String (List AnswerRecord)) : List ExportRow :=
  match loads username with
  | .error _ => []
  | .ok responses =>
    responses.filterMap (fun response =>
      if response.question_id < questions.length then
        make_row username questions response
      else none)

/-- The aggregate export `export_all_data`: loads the catalog, collects
the per-identity rows over every known identity, and writes either the
unioned rows or the placeholder when no data was collected.  A catalog
load error propagates as the overall failure result. -/
def export_all_data (users : List (String × Account))
    (qfile : Option (List CsvRow))
    (loads : String → Except String (List AnswerRecord)) :
    Except String ExportFile :=
  match load_questions qfile with
  | .error e => .error e
  | .ok (questions, _) =>
    let all_data := (users.map (fun u => user_rows questions u.1 loads)).flatten
    if all_data.isEmpty then .ok .placeholder else .ok (.rows all_data)

theorem filterMap_inrange_length (questions : List Question) (username : String) :
    ∀ rs : List AnswerRecord,
      (rs.filterMap (fun response =>
        if response.question_id < questions.length then
          make_row username questions response
        else none)).length =
      (rs.filter (fun r => r.question_id < questions.length)).length := by
  intro rs
  induction rs with
  | nil => rfl
  | cons r rest ih =>
    by_cases hg : r.question_id < questions.length
    · have hq : questions[r.question_id]? = some (questions[r.question_id]) :=
        List.getElem?_eq_getElem hg
      obtain ⟨row, hmr⟩ : ∃ row, make_row username questions r = some row :=
        ⟨⟨r.question_id, username, (questions[r.question_id]).sentence,
          (questions[r.question_id]).option1, (questions[r.question_id]).option2,
          r.selected_option, r.selected_text, r.confidence, r.timestamp⟩,
          by simp [make_row, hq]⟩
      simp only [List.filterMap_cons, if_pos hg, hmr, List.filter_cons]
      simp [hg, ih]
    · simp only [List.filterMap_cons, if_neg hg, List.filter_cons]
      simp [hg, ih]

theorem user_rows_length_of_ok {questions : List Question} {username : String}
    {loads : String → Except String (List AnswerRecord)}
    {responses : List AnswerRecord} (h : loads username = .ok responses) :
    (user_rows questions username loads).length =
      (responses.filter (fun r => r.question_id < questions.length)).length := by
  simp only [user_rows, h]
  exact filterMap_inrange_length questions username responses

theorem mem_user_rows_qid {questions : List Question} {username : String}
    {loads : String → Except String (List AnswerRecord)} {row : ExportRow}
    (h : row ∈ user_rows questions username loads) :
    row.question_id < questions.length := by
  unfold user_rows at h
  cases hl : loads username with
  | error e =>
    rw [hl] at h
    simp at h
  | ok rs =>
    rw [hl] at h
    obtain ⟨a, _, hfa⟩ := List.mem_filterMap.mp h
    by_cases hg : a.question_id < questions.length
    · rw [if_pos hg] at hfa
      simp only [make_row, Option.map_eq_some'] at hfa
      obtain ⟨q, _, rfl⟩ := hfa
      exact hg
    · rw [if_neg hg] at hfa
      cases hfa

/-- C5: the aggregate export is robust: given a loadable catalog it
always returns success; an identity whose ledger load fails contributes
no rows (but the export continues), an identity whose ledger loads
contributes exactly its in-range records, every exported row's ordinal
is in range, every identity's collected rows appear in the output, and
when nothing is collected the placeholder file is written. -/
theorem export_all_data_robust (users : List (String × Account))
    (qfile : Option (List CsvRow))
    (loads : String → Except String (List AnswerRecord))
    (questions : List Question) (qstate : Option (List CsvRow))
    (hq : load_questions qfile = .ok (questions, qstate)) :
    (∃ file, export_all_data users qfile loads = .ok file) ∧
    (∀ username e, loads username = .error e →
      user_rows questions username loads = []) ∧
    (∀ username responses, loads username = .ok responses →
      (user_rows questions username loads).length =
        (responses.filter (fun r => r.question_id < questions.length)).length) ∧
    (∀ rows, export_all_data users qfile loads = .ok (.rows rows) →
      (∀ row ∈ rows, row.question_id < questions.length) ∧
      ∀ u ∈ users, ∀ row ∈ user_rows questions u.1 loads, row ∈ rows) ∧
    ((users.map (fun u => user_rows questions u.1 loads)).flatten = [] →
      export_all_data users qfile loads = .ok .placeholder) := by
  refine ⟨?_, ?_, ?_, ?_, ?_⟩
  · simp only [export_all_data, hq]
    by_cases he : ((users.map (fun u => user_rows questions u.1 loads)).flatten).isEmpty <;>
      simp [he]
  · intro username e he
    simp [user_rows, he]
  · intro username responses h
    exact user_rows_length_of_ok h
  · intro rows h
    simp only [export_all_data, hq] at h
    by_cases he : ((users.map (fun u => user_rows questions u.1 loads)).flatten).isEmpty
    · rw [if_pos he] at h
      cases h
    · rw [if_neg he] at h
      have hrows : rows = (users.map (fun u => user_rows questions u.1 loads)).flatten := by
        cases h
        rfl
      subst hrows
      constructor
      · intro row hrow
        obtain ⟨l, hl, hrl⟩ := List.mem_flatten.mp hrow
        obtain ⟨u, _, rfl⟩ := List.mem_map.mp hl
        exact mem_user_rows_qid hrl
      · intro u hu row hrow
        exact List.mem_flatten.mpr ⟨user_rows questions u.1 loads,
          List.mem_map_of_mem _ hu, hrow⟩
  · intro hempty
    simp [export_all_data, hq, hempty]

/-- Per-identity progress data as reported by the statistics page. -/
structure UserProgress where
  responses : Nat
  progress : ℚ
  created_at : String
deriving DecidableEq

/-- The aggregate statistics record returned by `get_statistics`. -/
structure Stats where
  total_users : Nat
  total_responses : Nat
  question_count : Nat
  completion_rate : ℚ
  user_progress : List (String × UserProgress)
deriving DecidableEq

/-- The raw question count used by the statistics code: the number of
lines of the catalog file (header plus data rows) minus one, and zero
when the file is absent. -/
def count_questions (qfile : Option (List CsvRow)) : Nat :=
  match qfile with
  | none => 0
  | some rows => rows.length + 1 - 1

/-- The completed-identity counter of the statistics loop: one per
identity whose response count is at least the question count. -/
def completed_users (users : List (String × Account)) (qc : Nat)
    (ledgers : String → List AnswerRecord) : Nat :=
  users.foldl (fun acc u => if qc ≤ (ledgers u.1).length then acc + 1 else acc) 0

/-- The statistics aggregator `get_statistics`: totals, per-identity
progress percentages (guarded against a zero question count), and the
completion rate, which the code sets to zero unless both the user count
and the question count are positive. -/
def get_statistics (users : List (String × Account))
    (qfile : Option (List CsvRow)) (ledgers : String → List AnswerRecord) :
    Stats :=
  let qc := count_questions qfile
  let total_users := users.length
  let total_responses := users.foldl (fun acc u => acc + (ledgers u.1).length) 0
  let user_progress := users.map (fun u =>
    (u.1, (⟨(ledgers u.1).length,
      if 0 < qc then ((ledgers u.1).length : ℚ) / (qc : ℚ) * 100 else 0,
      u.2.created_at⟩ : UserProgress)))
  let completed := completed_users users qc ledgers
  let completion_rate : ℚ :=
    if 0 < total_users ∧ 0 < qc then
      ((completed : ℚ) / (total_users : ℚ)) * 100
    else 0
  ⟨total_users, total_responses, qc, completion_rate, user_progress⟩

/-- Comparison definition following the spec's words: the number of
identities counted as completed, an identity being completed iff its
response count is at least the catalog size. -/
def spec_completed_count (users : List (String × Account)) (qc : Nat)
    (ledgers : String → List AnswerRecord) : Nat :=
  (users.filter (fun u => qc ≤ (ledgers u.1).length)).length

/-- Comparison definition following the spec's words: the completion
rate is 100 times the completed identity count divided by the total
account count; with rational division the result is 0 whenever either
operand is 0. -/
def spec_completion_rate (users : List (String × Account)) (qc : Nat)
    (ledgers : String → List AnswerRecord) : ℚ :=
  100 * (spec_completed_count users qc ledgers : ℚ) / (users.length : ℚ)

theorem completed_users_eq (users : List (String × Account)) (qc : Nat)
    (ledgers : String → List AnswerRecord) :
    completed_users users qc ledgers = spec_completed_count users qc ledgers := by
  have key : ∀ (us : List (String × Account)) (acc : Nat),
      us.foldl (fun a u => if qc ≤ (ledgers u.1).length then a + 1 else a) acc
        = acc + (us.filter (fun u => qc ≤ (ledgers u.1).length)).length := by
    intro us
    induction us with
    | nil => intro acc; simp
    | cons u rest ih =>
      intro acc
      by_cases h : qc ≤ (ledgers u.1).length
      · simp only [List.foldl_cons, if_pos h, ih, List.filter_cons,
          decide_eq_true_eq, h, if_true, List.length_cons]
        omega
      · simp only [List.foldl_cons, if_neg h, ih, List.filter_cons,
          decide_eq_true_eq, h, if_false]
  simpa [completed_users, spec_completed_count] using key users 0

/-- C6 counterexample: with one registered identity and a catalog whose
question count is zero, the identity counts as completed (0 responses ≥
0 questions), so the spec formula 100 * completed / total yields 100,
but the code returns a completion rate of 0. -/
theorem get_statistics_rate_cex :
    (get_statistics [("u1", ⟨"h", "t"⟩)] (some []) (fun _ => [])).completion_rate = 0 ∧
    spec_completion_rate [("u1", ⟨"h", "t"⟩)]
      (count_questions (some [])) (fun _ => []) = 100 ∧
    (0 : ℚ) ≠ 100 := by
  refine ⟨?_, ?_, by norm_num⟩
  · simp [get_statistics, count_questions]
  · norm_num [spec_completion_rate, spec_completed_count, count_questions]

/-- C6 (amended): the completed counter counts exactly the identities
whose response count is at least the question count, and the completion
rate equals the spec formula 100 * completed / total whenever the
question count is positive; when the question count is zero the code
reports a completion rate of 0 regardless of the formula's value. -/
theorem get_statistics_completion_amended (users : List (String × Account))
    (qfile : Option (List CsvRow)) (ledgers : String → List AnswerRecord) :
    completed_users users (count_questions qfile) ledgers
      = spec_completed_count users (count_questions qfile) ledgers ∧
    (0 < count_questions qfile →
      (get_statistics users qfile ledgers).completion_rate
        = spec_completion_rate users (count_questions qfile) ledgers) ∧
    (count_questions qfile = 0 →
      (get_statistics users qfile ledgers).completion_rate = 0) := by
  refine ⟨completed_users_eq users (count_questions qfile) ledgers, ?_, ?_⟩
  · intro hqc
    by_cases hu : 0 < users.length
    · simp only [get_statistics, if_pos (And.intro hu hqc), spec_completion_rate,
        completed_users_eq]
      rw [mul_comm, mul_div_assoc]
    · have hu0 : users.length = 0 := Nat.eq_zero_of_not_pos hu
      simp only [get_statistics, spec_completion_rate, hu0]
      norm_num
  · intro hqc
    simp [get_statistics, hqc]

/-- A concrete answer record for question ordinal 0, used as a witness
input. -/
def recA : AnswerRecord :=
  ⟨0, "u1", "The movie was really enjoyable and entertaining.", 1,
   "I found the film to be quite delightful.", 3, "2024-01-01 00:00:00"⟩

/-- A resubmission for ordinal 0 with different content, used as a
witness input. -/
def recB : AnswerRecord :=
  ⟨0, "u1", "The movie was really enjoyable and entertaining.", 2,
   "The cinematic experience gave me great pleasure.", 5, "2024-01-02 00:00:00"⟩

/-- A concrete answer record for question ordinal 1, used as a witness
input. -/
def recC : AnswerRecord :=
  ⟨1, "u1", "The company announced record profits this quarter.", 1,
   "The firm reported unprecedented earnings for this period.", 4,
   "2024-01-01 00:00:01"⟩

theorem save_response_replaces_witness :
    (save_response [recA] recB).length = [recA].length ∧
    recB ∈ save_response [recA] recB ∧
    ∀ r ∈ save_response [recA] recB,
      r.question_id = recB.question_id → r = recB :=
  save_response_replaces [recA] recB (by simp [ledgerInvariant])
    ⟨recA, by simp, rfl⟩

theorem save_response_invariant_witness :
    ledgerInvariant (save_response [recA] recC) :=
  save_response_invariant [recA] recC (by simp [ledgerInvariant])

theorem save_response_frame_witness :
    (save_response [recA] recC).count recA = [recA].count recA :=
  (save_response_frame [recA] recC).1 recA (by decide)

theorem export_results_integrity_witness :
    ∃ rows, export_results "u1" sample_questions [recA] = some rows ∧
      rows.length = [recA].length :=
  (export_results_integrity "u1" sample_questions [recA]).2
    (by
      intro r hr
      rcases List.mem_singleton.mp hr with rfl
      decide)

theorem export_all_data_robust_witness :
    ∃ file, export_all_data [("u1", ⟨"h", "2024-01-01 00:00:00"⟩)] none
      (fun _ => .ok []) = .ok file :=
  (export_all_data_robust [("u1", ⟨"h", "2024-01-01 00:00:00"⟩)] none
    (fun _ => .ok []) sample_questions (some sample_csv) rfl).1

theorem get_statistics_completion_amended_witness :
    0 < count_questions (some [⟨some "a", some "b", some "c"⟩]) ∧
    (get_statistics [("u1", ⟨"h", "t"⟩)] (some [⟨some "a", some "b", some "c"⟩])
        (fun _ => [])).completion_rate
      = spec_completion_rate [("u1", ⟨"h", "t"⟩)]
          (count_questions (some [⟨some "a", some "b", some "c"⟩])) (fun _ => []) :=
  ⟨by decide,
    (get_statistics_completion_amended [("u1", ⟨"h", "t"⟩)]
      (some [⟨some "a", some "b", some "c"⟩]) (fun _ => [])).2.1 (by decide)⟩

theorem register_user_twice_witness :
    (register_user (fun s => s) [] "u1" "pw1" "t1").1 =
      (true, "Registration successful") ∧
    (register_user (fun s => s) [] "u1" "pw1" "t1").2.lookup "u1" =
      some ⟨(fun s : String => s) "pw1", "t1"⟩ ∧
    (register_user (fun s => s)
        (register_user (fun s => s) [] "u1" "pw1" "t1").2 "u1" "pw2" "t2").1 =
      (false, "Username already exists") ∧
    (register_user (fun s => s)
        (register_user (fun s => s) [] "u1" "pw1" "t1").2 "u1" "pw2" "t2").2 =
      (register_user (fun s => s) [] "u1" "pw1" "t1").2 ∧
    (register_user (fun s => s)
        (register_user (fun s => s) [] "u1" "pw1" "t1").2 "u1" "pw2" "t2").2.lookup
      "u1" = some ⟨(fun s : String => s) "pw1", "t1"⟩ :=
  register_user_twice (fun s => s) [] "u1" "pw1" "t1" "pw2" "t2" rfl

theorem delete_user_nonexistent_witness :
    (delete_user [] (fun _ => none) "u1").1.1 = true ∧
    (delete_user [] (fun _ => none) "u1").2.1 = [] ∧
    ∀ u, (delete_user [] (fun _ => none) "u1").2.2 u = none :=
  delete_user_nonexistent [] (fun _ => none) "u1" rfl rfl
